import Mathlib

/-!
Shallow embedding of `pivot_table.py` (UK_links_pivot): the filtering +
streaming pivot-aggregation pipeline.

Modelling conventions:
* A pandas cell is `Option String`: `none` models NaN (a missing value),
  `some s` a string cell.  `pd.read_csv(..., dtype=str)` turns an empty CSV
  field into NaN, while `pd.read_csv(..., dtype=str, na_filter=False)`
  (the chunked reader) keeps it as the empty string — both readers are
  modelled explicitly below.
* A regex is modelled as a black-box full-match predicate `String → Bool`
  (what `re.fullmatch` decides on a candidate string);
  `pandas.Series.str.contains` (i.e. `re.search`) semantics are recovered by
  asking whether any substring matches fully.
* A pandas pivot table / count frame is a list of (key, count) pairs kept
  strictly sorted by key — pandas sorts group keys, and an outer index join
  also sorts, so list equality coincides with frame equality.
* Python exceptions are modelled with `Except Err`.
-/

/-- A regex pattern, as a black-box anchored matcher: `p s = true` iff the
regex matches the entire string `s` (what `re.fullmatch` decides). -/
def Pattern := String → Bool

/-- A literal (metacharacter-free) regex pattern: it fully matches exactly
the literal text itself. -/
def litPat (lit : String) : Pattern := fun s => s == lit

/-- All contiguous substrings of `s` (including empty ones). -/
def substrings (s : String) : List String :=
  ((s.toList.tails.map List.inits).flatten).map List.asString

/-- `pandas.Series.str.contains` / `re.search` semantics: some contiguous
substring of `s` is fully matched by the pattern. -/
def containsMatch (p : Pattern) (s : String) : Bool :=
  (substrings s).any p

/-- A pandas cell: `none` is NaN, `some s` a string value. -/
abbrev Cell := Option String

/-- `.str.contains(pat, na=False)` on one cell: NaN counts as no match. -/
def cellContains (p : Pattern) : Cell → Bool
  | none => false
  | some s => containsMatch p s

/-- A pandas DataFrame with string cells: a column header and rows of cells
positionally aligned with the header. -/
structure DF where
  cols : List String
  rows : List (List Cell)
deriving DecidableEq

/-- Cell of a row at a column position (missing positions read as NaN). -/
def getCell (r : List Cell) (j : Nat) : Cell := r.getD j none

/-- Position of a column label, as pandas column lookup does; `none` models
the `KeyError` case. -/
def DF.colIdx (df : DF) (c : String) : Option Nat :=
  df.cols.findIdx? (· == c)

/-- The Python exceptions that can surface in this pipeline. -/
inductive Err where
  | keyError (col : String)
  | zeroDivisionError
  | attributeError
deriving DecidableEq

instance {ε α : Type} [DecidableEq ε] [DecidableEq α] : DecidableEq (Except ε α) := fun x y =>
  match x, y with
  | .error e, .error f =>
    if h : e = f then .isTrue (by rw [h]) else .isFalse (by simp [h])
  | .error _, .ok _ => .isFalse (by simp)
  | .ok _, .error _ => .isFalse (by simp)
  | .ok a, .ok b =>
    if h : a = b then .isTrue (by rw [h]) else .isFalse (by simp [h])

/-- The `Config` object consumed by the pipeline (`config.py`): the filter
specification.  An unset / empty exclude pattern is `none` (falsy in the
source's `if config.main_column_exclude:` test). -/
structure Config where
  main_column : String
  main_column_exclude : Option Pattern
  secondary_column : String
  secondary_column_exclude : Option Pattern
  additional_filters : List (String × Pattern)

/-- `dataframe.dropna(how='all', axis=1)`: drop every column all of whose
cells are NaN (vacuously every column, if there are no rows). -/
def dropEmptyCols (df : DF) : DF :=
  let keep := (List.range df.cols.length).filter fun j =>
    df.rows.any fun r => (getCell r j).isSome
  ⟨keep.map fun j => df.cols.getD j "",
   df.rows.map fun r => keep.map fun j => getCell r j⟩

/-- `dataframe = dataframe[~dataframe[col].str.contains(pat, na=False)]`:
keep the rows whose cell in `col` has no substring matching `pat`; raise
`KeyError` when the column is absent. -/
def applyExclude (df : DF) (col : String) (p : Pattern) : Except Err DF :=
  match df.colIdx col with
  | none => .error (.keyError col)
  | some j => .ok ⟨df.cols, df.rows.filter fun r => !(cellContains p (getCell r j))⟩

/-- The exclude step guarded by the truthiness test on the configured
pattern (`if config.main_column_exclude:`). -/
def applyExcludeOpt (col : String) : Option Pattern → DF → Except Err DF
  | none, df => .ok df
  | some p, df => applyExclude df col p

/-- `dataframe.fillna('').astype(str)` on one cell. -/
def fillCell (c : Cell) : Cell := some (c.getD "")

/-- `dataframe.fillna('').astype(str)`. -/
def fillEmpty (df : DF) : DF := ⟨df.cols, df.rows.map (·.map fillCell)⟩

/-- Cell read as a string (cells are strings after `fillna`). -/
def cellStr (c : Cell) : String := c.getD ""

/-- The `for filter_column, filter_values in config.additional_filters`
loop: keep rows whose cell fully matches the pattern; a missing column
(`KeyError`) skips that one filter and continues with the rest. -/
def applyAdditional (df : DF) : List (String × Pattern) → DF
  | [] => df
  | (c, p) :: rest =>
    match df.colIdx c with
    | none => applyAdditional df rest
    | some j =>
      applyAdditional ⟨df.cols, df.rows.filter fun r => p (cellStr (getCell r j))⟩ rest

/-- `filter_dataframe` (pivot_table.py:50-72): drop empty columns, apply the
main and secondary substring excludes, fill NaN with the empty string, then
apply the full-match additional filters. -/
def filter_dataframe (df : DF) (cfg : Config) : Except Err DF := do
  let d0 := dropEmptyCols df
  let d1 ← applyExcludeOpt cfg.main_column cfg.main_column_exclude d0
  let d2 ← applyExcludeOpt cfg.secondary_column cfg.secondary_column_exclude d1
  .ok (applyAdditional (fillEmpty d2) cfg.additional_filters)

/-- Python's string strip: remove leading and trailing whitespace
characters (models `.str.strip()`). -/
def pyStrip (s : String) : String :=
  (((s.toList.dropWhile Char.isWhitespace).reverse.dropWhile Char.isWhitespace).reverse).asString

/-- Python's `<` on strings: codepoint-lexicographic comparison, here on
the character lists (the order pandas sorts string keys by). -/
def listLtb : List Char → List Char → Bool
  | [], [] => false
  | [], _ :: _ => true
  | _ :: _, [] => false
  | c :: cs, d :: ds => if c < d then true else if d < c then false else listLtb cs ds

/-- A pivot key: a (main value, secondary value) pair. -/
abbrev PivotKey := String × String

/-- A pivot count frame: (key, count) rows, kept strictly sorted by key
(pandas sorts the group index). -/
abbrev CountTable := List (PivotKey × Nat)

/-- Lexicographic strict order on pivot keys, as a boolean: the order of a
sorted pandas MultiIndex on (main, secondary). -/
def keyLtb (a b : PivotKey) : Bool :=
  listLtb a.1.toList b.1.toList || (a.1 == b.1 && listLtb a.2.toList b.2.toList)

/-- Lexicographic strict order on pivot keys. -/
def keyLt (a b : PivotKey) : Prop := keyLtb a b = true

instance : DecidableRel keyLt := fun a b =>
  inferInstanceAs (Decidable (keyLtb a b = true))

/-- Record one occurrence of key `k` in a sorted count table. -/
def bumpKey : CountTable → PivotKey → CountTable
  | [], k => [(k, 1)]
  | (k', n) :: t, k =>
    if keyLt k k' then (k, 1) :: (k', n) :: t
    else if k = k' then (k', n + 1) :: t
    else (k', n) :: bumpKey t k

/-- `new_df.pivot_table(index=index_columns, values=[count_column],
aggfunc=np.count_nonzero)`: the exact group-and-count, producing a
key-sorted count table. -/
def aggregate (ks : List PivotKey) : CountTable := ks.foldl bumpKey []

/-- Count stored for key `k` (0 when the key is absent). -/
def tblCount : CountTable → PivotKey → Nat
  | [], _ => 0
  | (k', n) :: t, k => (if k = k' then n else 0) + tblCount t k

/-- Keys present in a count table. -/
def keys (t : CountTable) : List PivotKey := t.map Prod.fst

/-- Sum of all stored counts. -/
def sumCounts (t : CountTable) : Nat := (t.map Prod.snd).sum

/-- Representation invariant of a pandas count frame: strictly key-sorted
rows, every stored count positive. -/
def WF (t : CountTable) : Prop :=
  t.Pairwise (fun e e' => keyLt e.1 e'.1) ∧ ∀ e ∈ t, 0 < e.2

instance (t : CountTable) : Decidable (WF t) :=
  inferInstanceAs
    (Decidable (t.Pairwise (fun e e' : PivotKey × Nat => keyLt e.1 e'.1) ∧ ∀ e ∈ t, 0 < e.2))

/-- Add `n` occurrences of key `k` into a sorted count table, summing with
an existing entry for `k`. -/
def mergeIns : CountTable → PivotKey → Nat → CountTable
  | [], k, n => [(k, n)]
  | (k', m) :: t, k, n =>
    if keyLt k k' then (k, n) :: (k', m) :: t
    else if k = k' then (k', m + n) :: t
    else (k', m) :: mergeIns t k n

/-- `pd.merge(a, b, left_index=True, right_index=True, how='outer')
.sum(axis=1)` (pivot_table.py:112-117): outer join on the key index, then
row-wise sum with NaN (an absent side) contributing nothing — the key set
becomes the union and counts of shared keys add. -/
def merge (a b : CountTable) : CountTable :=
  b.foldl (fun acc e => mergeIns acc e.1 e.2) a

/-- `pivot_table` (pivot_table.py:75-93): keep the rows whose secondary
value is non-empty after stripping, then count each (main, secondary)
pair.  A missing secondary column raises `KeyError` first (line 83), a
missing main column raises inside the `pivot_table` call (line 88). -/
def pivot_table (df : DF) (cfg : Config) : Except Err CountTable :=
  match df.colIdx cfg.secondary_column with
  | none => .error (.keyError cfg.secondary_column)
  | some sj =>
    match df.colIdx cfg.main_column with
    | none => .error (.keyError cfg.main_column)
    | some mj =>
      let kept := df.rows.filter fun r => !(pyStrip (cellStr (getCell r sj)) == "")
      .ok (aggregate (kept.map fun r => (cellStr (getCell r mj), cellStr (getCell r sj))))

/-- A raw CSV file: a header line and record lines of string fields (an
empty field is the empty string). -/
structure Csv where
  header : List String
  records : List (List String)
deriving DecidableEq

/-- `pd.read_csv(path, dtype=str, chunksize=100000, na_filter=False)` cell
conversion: every field stays a string, empty fields included. -/
def readChunkedRows (recs : List (List String)) : List (List Cell) :=
  recs.map (·.map some)

/-- `pd.read_csv(path, dtype=str)` cell conversion: an empty field becomes
NaN. -/
def readWholeCell (s : String) : Cell := if s = "" then none else some s

/-- Whole-file read of the record lines. -/
def readWholeRows (recs : List (List String)) : List (List Cell) :=
  recs.map (·.map readWholeCell)

/-- `chunksize=100000`. -/
def CHUNK_SIZE : Nat := 100000

/-- `MAX_FILE_SIZE = 100 << 20` (pivot_table.py:126). -/
def MAX_FILE_SIZE : Nat := 100 <<< 20

/-- Worker for `chunksOf`: `acc` is the current chunk reversed, `budget`
its remaining capacity. -/
def chunksGo (n : Nat) : List α → Nat → List α → List (List α)
  | [], _, acc => [acc.reverse]
  | x :: xs, 0, acc => acc.reverse :: chunksGo n xs (n - 1) [x]
  | x :: xs, budget + 1, acc => chunksGo n xs budget (x :: acc)

/-- Split a list into consecutive chunks of (at most) `n` elements, as the
chunked CSV reader yields them; chunks are never empty. -/
def chunksOf (n : Nat) : List α → List (List α)
  | [] => []
  | x :: xs => chunksGo n xs (n - 1) [x]

/-- The running-total update of the chunk loop (pivot_table.py:107-117):
an empty chunk table is skipped, the first non-empty table becomes the
running total, later ones are outer-join-summed into it. -/
def accTable (acc : Option CountTable) (t : CountTable) : Option CountTable :=
  if t = [] then acc
  else
    match acc with
    | none => some t
    | some a => some (merge a t)

/-- The `for chunk in reader` loop of `pivot_chunked_file`: filter and
pivot each chunk, folding the tables with `accTable`; the running total
starts as `None`. -/
def chunkLoop (header : List String) (cfg : Config) :
    List (List (List Cell)) → Option CountTable → Except Err (Option CountTable)
  | [], acc => .ok acc
  | ch :: rest, acc => do
    let filtered ← filter_dataframe ⟨header, ch⟩ cfg
    let pc ← pivot_table filtered cfg
    chunkLoop header cfg rest (accTable acc pc)

/-- `pivot_chunked_file` (pivot_table.py:96-118): read in 100000-row
chunks with `na_filter=False`, pivot each chunk and merge incrementally;
returns `None` (here `none`) when no chunk produced a non-empty table. -/
def pivot_chunked_file (file : Csv) (cfg : Config) : Except Err (Option CountTable) :=
  chunkLoop file.header cfg (chunksOf CHUNK_SIZE (readChunkedRows file.records)) none

/-- The whole-file branch of `pivot_file` (pivot_table.py:130-132): read
everything at once (empty fields as NaN), filter, pivot. -/
def pivot_whole (file : Csv) (cfg : Config) : Except Err (Option CountTable) := do
  let filtered ← filter_dataframe ⟨file.header, readWholeRows file.records⟩ cfg
  let t ← pivot_table filtered cfg
  .ok (some t)

/-- `pivot_file` (pivot_table.py:121-133): route on the file's byte size —
strictly larger than `MAX_FILE_SIZE` goes to the chunked path, anything
else is processed whole. -/
def pivot_file (fileSize : Nat) (file : Csv) (cfg : Config) :
    Except Err (Option CountTable) :=
  if fileSize > MAX_FILE_SIZE then pivot_chunked_file file cfg
  else pivot_whole file cfg

/-- `dataframe.to_excel(...)` on the object returned by `pivot_file`: on
`None` this raises `AttributeError` (`None.to_excel`); otherwise the table
is written out. -/
def write_dataframe_to_output : Option CountTable → Except Err CountTable
  | none => .error .attributeError
  | some t => .ok t

/-- Which exceptions the per-file `try/except` catches
(pivot_table.py:159: `except ZeroDivisionError`). -/
def catchesInLoop : Err → Bool
  | .zeroDivisionError => true
  | _ => false

/-- The per-file loop of `main` (pivot_table.py:154-160): process each
discovered file (byte size and content); an exception caught by the
`except` clause is logged (`none` entry) and the loop continues; any other
exception propagates and aborts the whole run. -/
def main_file_loop (cfg : Config) : List (Nat × Csv) → Except Err (List (Option CountTable))
  | [] => .ok []
  | (sz, f) :: rest =>
    match (pivot_file sz f cfg).bind write_dataframe_to_output with
    | .ok t => (main_file_loop cfg rest).map (fun l => some t :: l)
    | .error e =>
      if catchesInLoop e then (main_file_loop cfg rest).map (fun l => none :: l)
      else .error e

/-- The explicitly empty count table. -/
def emptyTable : CountTable := []

/-! ### Properties of the codepoint-lexicographic comparison -/

theorem listLtb_irrefl (l : List Char) : listLtb l l = false := by
  induction l with
  | nil => rfl
  | cons c cs ih => simp [listLtb, lt_self_iff_false, ih]

theorem listLtb_trans : ∀ {a b c : List Char},
    listLtb a b = true → listLtb b c = true → listLtb a c = true
  | [], _ :: _, _ :: _, _, _ => rfl
  | [], [], c, hab, _ => by cases hab
  | [], _ :: _, [], _, hbc => by cases hbc
  | _ :: _, [], _, hab, _ => by cases hab
  | _ :: _, _ :: _, [], _, hbc => by cases hbc
  | x :: xs, y :: ys, z :: zs, hab, hbc => by
    simp only [listLtb] at hab hbc ⊢
    by_cases hxy : x < y
    · by_cases hyz : y < z
      · simp [lt_trans hxy hyz]
      · simp only [if_pos hxy, if_neg hyz] at hbc ⊢
        by_cases hzy : z < y
        · simp [if_pos hzy] at hbc
        · have : y = z := le_antisymm (not_lt.mp hzy) (not_lt.mp hyz)
          subst this
          simp [hxy]
    · simp only [if_neg hxy] at hab
      by_cases hyx : y < x
      · simp [if_pos hyx] at hab
      · simp only [if_neg hyx] at hab
        have hxyeq : x = y := le_antisymm (not_lt.mp hyx) (not_lt.mp hxy)
        subst hxyeq
        by_cases hyz : x < z
        · simp [hyz]
        · simp only [if_neg hyz] at hbc ⊢
          by_cases hzy : z < x
          · simp [if_pos hzy] at hbc
          · simp only [if_neg hzy] at hbc ⊢
            exact listLtb_trans hab hbc

theorem listLtb_asymm {a b : List Char} (h : listLtb a b = true) : listLtb b a = false := by
  by_contra h'
  have hba : listLtb b a = true := by
    cases hh : listLtb b a
    · exact absurd hh h'
    · rfl
  have := listLtb_trans h hba
  rw [listLtb_irrefl] at this
  cases this

theorem listLtb_eq_of_not : ∀ {a b : List Char},
    listLtb a b = false → listLtb b a = false → a = b
  | [], [], _, _ => rfl
  | [], _ :: _, hab, _ => by cases hab
  | _ :: _, [], _, hba => by cases hba
  | x :: xs, y :: ys, hab, hba => by
    simp only [listLtb] at hab hba
    by_cases hxy : x < y
    · simp [if_pos hxy] at hab
    · by_cases hyx : y < x
      · simp [if_pos hyx] at hba
      · simp only [if_neg hxy, if_neg hyx] at hab hba
        have hx : x = y := le_antisymm (not_lt.mp hyx) (not_lt.mp hxy)
        rw [hx, listLtb_eq_of_not hab hba]

/-! ### Properties of the key order -/

theorem keyLt_iff {a b : PivotKey} :
    keyLt a b ↔ (listLtb a.1.toList b.1.toList = true ∨
      (a.1 = b.1 ∧ listLtb a.2.toList b.2.toList = true)) := by
  simp [keyLt, keyLtb, Bool.or_eq_true, Bool.and_eq_true, beq_iff_eq]

theorem keyLt_irrefl (a : PivotKey) : ¬ keyLt a a := by
  rw [keyLt_iff]
  simp [listLtb_irrefl]

theorem keyLt_trans {a b c : PivotKey} (hab : keyLt a b) (hbc : keyLt b c) : keyLt a c := by
  rw [keyLt_iff] at hab hbc ⊢
  rcases hab with h1 | ⟨he1, h1⟩
  · rcases hbc with h2 | ⟨he2, h2⟩
    · exact Or.inl (listLtb_trans h1 h2)
    · rw [he2] at h1
      exact Or.inl h1
  · rcases hbc with h2 | ⟨he2, h2⟩
    · rw [he1]
      exact Or.inl h2
    · exact Or.inr ⟨he1.trans he2, listLtb_trans h1 h2⟩

theorem keyLt_asymm {a b : PivotKey} (h : keyLt a b) : ¬ keyLt b a := by
  intro h'
  exact keyLt_irrefl a (keyLt_trans h h')

theorem keyLt_ne {a b : PivotKey} (h : keyLt a b) : a ≠ b := by
  intro he
  rw [he] at h
  exact keyLt_irrefl b h

theorem keyLt_eq_of_not {a b : PivotKey} (hab : ¬ keyLt a b) (hba : ¬ keyLt b a) : a = b := by
  rw [keyLt_iff] at hab hba
  push_neg at hab hba
  obtain ⟨hab1, hab2⟩ := hab
  obtain ⟨hba1, hba2⟩ := hba
  have h1ab : listLtb a.1.toList b.1.toList = false := by
    cases h : listLtb a.1.toList b.1.toList
    · rfl
    · exact absurd h hab1
  have h1ba : listLtb b.1.toList a.1.toList = false := by
    cases h : listLtb b.1.toList a.1.toList
    · rfl
    · exact absurd h hba1
  have he1 : a.1 = b.1 := String.toList_inj.mp (listLtb_eq_of_not h1ab h1ba)
  have h2ab : listLtb a.2.toList b.2.toList = false := by
    cases h : listLtb a.2.toList b.2.toList
    · rfl
    · exact absurd h (hab2 he1)
  have h2ba : listLtb b.2.toList a.2.toList = false := by
    cases h : listLtb b.2.toList a.2.toList
    · rfl
    · exact absurd h (hba2 he1.symm)
  have he2 : a.2 = b.2 := String.toList_inj.mp (listLtb_eq_of_not h2ab h2ba)
  exact Prod.ext he1 he2

/-! ### Counting, well-formedness and extensionality of count tables -/

theorem tblCount_eq_zero {t : CountTable} {k : PivotKey} (h : ∀ e ∈ t, e.1 ≠ k) :
    tblCount t k = 0 := by
  induction t with
  | nil => rfl
  | cons e t ih =>
    obtain ⟨k', n⟩ := e
    simp only [tblCount]
    rw [if_neg, ih]
    · intro e he
      exact h e (List.mem_cons_of_mem _ he)
    · intro hk
      exact h (k', n) (List.mem_cons_self _ _) (by simp [hk.symm])

theorem tblCount_pos_of_mem {t : CountTable} {k : PivotKey}
    (hpos : ∀ e ∈ t, 0 < e.2) (hk : k ∈ keys t) : 0 < tblCount t k := by
  induction t with
  | nil => simp [keys] at hk
  | cons e t ih =>
    obtain ⟨k', n⟩ := e
    simp only [keys, List.map_cons, List.mem_cons] at hk
    simp only [tblCount]
    rcases hk with hk | hk
    · rw [if_pos hk]
      have := hpos (k', n) (List.mem_cons_self _ _)
      omega
    · have := ih (fun e he => hpos e (List.mem_cons_of_mem _ he)) hk
      omega

theorem mem_keys_of_count_pos {t : CountTable} {k : PivotKey}
    (h : 0 < tblCount t k) : k ∈ keys t := by
  by_contra hk
  rw [tblCount_eq_zero] at h
  · exact Nat.lt_irrefl 0 h
  · intro e he hek
    exact hk (hek ▸ List.mem_map_of_mem Prod.fst he)

theorem mem_keys_iff_count_pos {t : CountTable} {k : PivotKey}
    (hpos : ∀ e ∈ t, 0 < e.2) : k ∈ keys t ↔ 0 < tblCount t k :=
  ⟨tblCount_pos_of_mem hpos, mem_keys_of_count_pos⟩

theorem tail_count_zero {k : PivotKey} {n : Nat} {t : CountTable}
    (h : ((k, n) :: t).Pairwise (fun e e' => keyLt e.1 e'.1)) : tblCount t k = 0 := by
  apply tblCount_eq_zero
  intro e he
  have := (List.pairwise_cons.mp h).1 e he
  exact fun hek => keyLt_ne this (by simp [hek])

theorem tblCount_cons_self (k : PivotKey) (n : Nat) (t : CountTable) :
    tblCount ((k, n) :: t) k = n + tblCount t k := by
  simp [tblCount]

theorem tblCount_cons_of_ne {x k : PivotKey} (h : x ≠ k) (n : Nat) (t : CountTable) :
    tblCount ((k, n) :: t) x = tblCount t x := by
  simp [tblCount, h]

theorem tbl_ext : ∀ {a b : CountTable}, WF a → WF b →
    (∀ k, tblCount a k = tblCount b k) → a = b
  | [], [], _, _, _ => rfl
  | [], (k', n') :: b, _, hb, h => by
    have hc := h k'
    rw [tblCount_cons_self] at hc
    have hz : tblCount ([] : CountTable) k' = 0 := rfl
    have hn : 0 < n' := hb.2 (k', n') (List.mem_cons_self _ _)
    omega
  | (k, n) :: a, [], ha, _, h => by
    have hc := h k
    rw [tblCount_cons_self] at hc
    have hz : tblCount ([] : CountTable) k = 0 := rfl
    have hn : 0 < n := ha.2 (k, n) (List.mem_cons_self _ _)
    omega
  | (k, n) :: a, (k', n') :: b, ha, hb, h => by
    have hta : tblCount a k = 0 := tail_count_zero ha.1
    have htb : tblCount b k' = 0 := tail_count_zero hb.1
    have hpa : 0 < n := ha.2 (k, n) (List.mem_cons_self _ _)
    have hpb : 0 < n' := hb.2 (k', n') (List.mem_cons_self _ _)
    have hkk : k = k' := by
      by_contra hne
      by_cases hlt : keyLt k k'
      · have hzb : tblCount ((k', n') :: b) k = 0 := by
          apply tblCount_eq_zero
          intro e he hek
          simp only [List.mem_cons] at he
          rcases he with he | he
          · rw [he] at hek
            exact hne hek.symm
          · have := (List.pairwise_cons.mp hb.1).1 e he
            exact keyLt_ne (keyLt_trans hlt this) (by simp [hek])
        have hc := h k
        rw [tblCount_cons_self, hta, hzb] at hc
        omega
      · by_cases hlt2 : keyLt k' k
        · have hza : tblCount ((k, n) :: a) k' = 0 := by
            apply tblCount_eq_zero
            intro e he hek
            simp only [List.mem_cons] at he
            rcases he with he | he
            · rw [he] at hek
              exact hne hek
            · have := (List.pairwise_cons.mp ha.1).1 e he
              exact keyLt_ne (keyLt_trans hlt2 this) (by simp [hek])
          have hc := h k'
          rw [tblCount_cons_self, htb, hza] at hc
          omega
        · exact hne (keyLt_eq_of_not hlt hlt2)
    subst hkk
    have hnn : n = n' := by
      have hc := h k
      rw [tblCount_cons_self, tblCount_cons_self, hta, htb] at hc
      omega
    subst hnn
    have hrest : a = b := by
      apply tbl_ext ⟨ha.1.of_cons, fun e he => ha.2 e (List.mem_cons_of_mem _ he)⟩
        ⟨hb.1.of_cons, fun e he => hb.2 e (List.mem_cons_of_mem _ he)⟩
      intro x
      by_cases hx : x = k
      · rw [hx, hta, htb]
      · have hc := h x
        rw [tblCount_cons_of_ne hx, tblCount_cons_of_ne hx] at hc
        exact hc
    rw [hrest]

/-! ### Semantics of mergeIns, merge, bumpKey and aggregate -/

theorem mergeIns_count (t : CountTable) (k : PivotKey) (n : Nat) (x : PivotKey) :
    tblCount (mergeIns t k n) x = tblCount t x + (if x = k then n else 0) := by
  induction t with
  | nil => simp [mergeIns, tblCount]
  | cons e t ih =>
    obtain ⟨k', m⟩ := e
    simp only [mergeIns]
    by_cases h1 : keyLt k k'
    · simp only [if_pos h1, tblCount]
      split_ifs <;> omega
    · by_cases h2 : k = k'
      · subst h2
        simp only [if_neg h1, if_pos rfl, tblCount]
        split_ifs <;> omega
      · simp only [if_neg h1, if_neg h2, tblCount, ih]
        split_ifs <;> omega

theorem mem_keys_mergeIns {t : CountTable} {k x : PivotKey} {n : Nat}
    (h : x ∈ keys (mergeIns t k n)) : x = k ∨ x ∈ keys t := by
  induction t with
  | nil => simpa [mergeIns, keys] using h
  | cons e t ih =>
    obtain ⟨k', m⟩ := e
    simp only [mergeIns] at h
    by_cases h1 : keyLt k k'
    · rw [if_pos h1] at h
      simpa [keys] using h
    · by_cases h2 : k = k'
      · subst h2
        rw [if_neg h1, if_pos rfl] at h
        simp only [keys, List.map_cons, List.mem_cons] at h ⊢
        tauto
      · rw [if_neg h1, if_neg h2] at h
        simp only [keys, List.map_cons, List.mem_cons] at h ⊢
        rcases h with h | h
        · tauto
        · rcases ih h with h | h <;> tauto

theorem WF_mergeIns {t : CountTable} {k : PivotKey} {n : Nat}
    (ht : WF t) (hn : 0 < n) : WF (mergeIns t k n) := by
  induction t with
  | nil =>
    constructor
    · simp [mergeIns]
    · intro e he
      simp only [mergeIns, List.mem_singleton] at he
      rw [he]
      exact hn
  | cons e t ih =>
    obtain ⟨k', m⟩ := e
    have htt : WF t := ⟨ht.1.of_cons, fun e he => ht.2 e (List.mem_cons_of_mem _ he)⟩
    simp only [mergeIns]
    by_cases h1 : keyLt k k'
    · rw [if_pos h1]
      constructor
      · rw [List.pairwise_cons]
        refine ⟨?_, ht.1⟩
        intro e he
        simp only [List.mem_cons] at he
        rcases he with he | he
        · rw [he]
          exact h1
        · exact keyLt_trans h1 ((List.pairwise_cons.mp ht.1).1 e he)
      · intro e he
        simp only [List.mem_cons] at he
        rcases he with he | he | he
        · rw [he]
          exact hn
        · rw [he]
          exact ht.2 (k', m) (List.mem_cons_self _ _)
        · exact ht.2 e (List.mem_cons_of_mem _ he)
    · by_cases h2 : k = k'
      · subst h2
        rw [if_neg h1, if_pos rfl]
        constructor
        · rw [List.pairwise_cons]
          exact ⟨(List.pairwise_cons.mp ht.1).1, htt.1⟩
        · intro e he
          simp only [List.mem_cons] at he
          rcases he with he | he
          · rw [he]
            simp
            omega
          · exact htt.2 e he
      · rw [if_neg h1, if_neg h2]
        have hk'k : keyLt k' k := by
          by_contra h3
          exact h2 (keyLt_eq_of_not h1 h3)
        obtain ⟨ihp, ihpos⟩ := ih htt
        constructor
        · rw [List.pairwise_cons]
          refine ⟨?_, ihp⟩
          intro e he
          have hm := List.mem_map_of_mem Prod.fst he
          rcases mem_keys_mergeIns hm with h | h
          · rw [h]
            exact hk'k
          · obtain ⟨e2, he2, hee⟩ := List.mem_map.mp h
            have hp := (List.pairwise_cons.mp ht.1).1 e2 he2
            rw [hee] at hp
            exact hp
        · intro e he
          simp only [List.mem_cons] at he
          rcases he with he | he
          · rw [he]
            exact ht.2 (k', m) (List.mem_cons_self _ _)
          · exact ihpos e he

theorem merge_cons (a : CountTable) (e : PivotKey × Nat) (b : CountTable) :
    merge a (e :: b) = merge (mergeIns a e.1 e.2) b := by
  simp [merge]

theorem merge_nil (a : CountTable) : merge a [] = a := rfl

theorem merge_count (b : CountTable) : ∀ (a : CountTable) (x : PivotKey),
    tblCount (merge a b) x = tblCount a x + tblCount b x := by
  induction b with
  | nil => intro a x; simp [merge_nil, tblCount]
  | cons e b ih =>
    intro a x
    obtain ⟨k, n⟩ := e
    rw [merge_cons, ih, mergeIns_count]
    simp only [tblCount]
    split_ifs <;> omega

theorem WF_merge {b : CountTable} : ∀ {a : CountTable}, WF a → WF b → WF (merge a b) := by
  induction b with
  | nil => intro a ha _; rw [merge_nil]; exact ha
  | cons e b ih =>
    intro a ha hb
    obtain ⟨k, n⟩ := e
    rw [merge_cons]
    have hn : 0 < n := hb.2 (k, n) (List.mem_cons_self _ _)
    exact ih (WF_mergeIns ha hn)
      ⟨hb.1.of_cons, fun e he => hb.2 e (List.mem_cons_of_mem _ he)⟩

theorem nil_merge {b : CountTable} (hb : WF b) : merge [] b = b := by
  apply tbl_ext (WF_merge ⟨List.Pairwise.nil, by simp⟩ hb) hb
  intro x
  rw [merge_count]
  have hz : tblCount ([] : CountTable) x = 0 := rfl
  omega

theorem mergeIns_ne_nil (t : CountTable) (k : PivotKey) (n : Nat) :
    mergeIns t k n ≠ [] := by
  cases t with
  | nil => simp [mergeIns]
  | cons e t =>
    obtain ⟨k', m⟩ := e
    simp only [mergeIns]
    split_ifs <;> simp

theorem merge_eq_nil : ∀ {b a : CountTable}, merge a b = [] → a = [] ∧ b = [] := by
  intro b
  induction b with
  | nil => intro a h; exact ⟨h, rfl⟩
  | cons e b ih =>
    intro a h
    rw [merge_cons] at h
    have := (ih h).1
    exact absurd this (mergeIns_ne_nil a e.1 e.2)

theorem merge_comm {a b : CountTable} (ha : WF a) (hb : WF b) : merge a b = merge b a := by
  apply tbl_ext (WF_merge ha hb) (WF_merge hb ha)
  intro x
  rw [merge_count, merge_count, Nat.add_comm]

theorem merge_assoc {a b c : CountTable} (ha : WF a) (hb : WF b) (hc : WF c) :
    merge (merge a b) c = merge a (merge b c) := by
  apply tbl_ext (WF_merge (WF_merge ha hb) hc) (WF_merge ha (WF_merge hb hc))
  intro x
  rw [merge_count, merge_count, merge_count, merge_count, Nat.add_assoc]

theorem bumpKey_eq_mergeIns : ∀ (t : CountTable) (k : PivotKey), bumpKey t k = mergeIns t k 1 := by
  intro t
  induction t with
  | nil => intro k; rfl
  | cons e t ih =>
    intro k
    obtain ⟨k', n⟩ := e
    simp only [bumpKey, mergeIns, ih]

theorem WF_foldl_bump (ks : List PivotKey) : ∀ (t : CountTable), WF t →
    WF (ks.foldl bumpKey t) := by
  induction ks with
  | nil => intro t ht; exact ht
  | cons k ks ih =>
    intro t ht
    rw [List.foldl_cons]
    exact ih _ (bumpKey_eq_mergeIns t k ▸ WF_mergeIns ht Nat.one_pos)

theorem WF_aggregate (ks : List PivotKey) : WF (aggregate ks) :=
  WF_foldl_bump ks [] ⟨List.Pairwise.nil, by simp⟩

theorem foldl_bump_count (ks : List PivotKey) : ∀ (t : CountTable) (x : PivotKey),
    tblCount (ks.foldl bumpKey t) x = tblCount t x + tblCount (aggregate ks) x := by
  induction ks with
  | nil => intro t x; simp [aggregate, tblCount]
  | cons k ks ih =>
    intro t x
    rw [List.foldl_cons]
    rw [ih (bumpKey t k) x]
    have h2 : tblCount (aggregate (k :: ks)) x
        = tblCount (bumpKey [] k) x + tblCount (aggregate ks) x := by
      rw [aggregate, List.foldl_cons, ih (bumpKey [] k) x]
    rw [h2]
    rw [bumpKey_eq_mergeIns, bumpKey_eq_mergeIns, mergeIns_count, mergeIns_count]
    have hz : tblCount ([] : CountTable) x = 0 := rfl
    omega

theorem aggregate_append (xs ys : List PivotKey) :
    aggregate (xs ++ ys) = merge (aggregate xs) (aggregate ys) := by
  apply tbl_ext (WF_aggregate _) (WF_merge (WF_aggregate xs) (WF_aggregate ys))
  intro x
  rw [merge_count, aggregate, List.foldl_append, foldl_bump_count]
  rfl

theorem sumCounts_mergeIns (t : CountTable) (k : PivotKey) (n : Nat) :
    sumCounts (mergeIns t k n) = sumCounts t + n := by
  induction t with
  | nil => simp [mergeIns, sumCounts]
  | cons e t ih =>
    obtain ⟨k', m⟩ := e
    simp only [mergeIns]
    split_ifs with h1 h2
    · simp only [sumCounts, List.map_cons, List.sum_cons]
      omega
    · simp only [sumCounts, List.map_cons, List.sum_cons]
      omega
    · simp only [sumCounts, List.map_cons, List.sum_cons] at ih ⊢
      omega

theorem sumCounts_foldl_bump (ks : List PivotKey) : ∀ (t : CountTable),
    sumCounts (ks.foldl bumpKey t) = sumCounts t + ks.length := by
  induction ks with
  | nil => intro t; simp
  | cons k ks ih =>
    intro t
    rw [List.foldl_cons, ih, bumpKey_eq_mergeIns, sumCounts_mergeIns]
    simp only [List.length_cons]
    omega

theorem sumCounts_aggregate (ks : List PivotKey) : sumCounts (aggregate ks) = ks.length := by
  rw [aggregate, sumCounts_foldl_bump]
  simp [sumCounts]

theorem mem_keys_foldl_bump (ks : List PivotKey) : ∀ (t : CountTable) (x : PivotKey),
    x ∈ keys (ks.foldl bumpKey t) → x ∈ keys t ∨ x ∈ ks := by
  induction ks with
  | nil => intro t x h; exact Or.inl h
  | cons k ks ih =>
    intro t x h
    rw [List.foldl_cons] at h
    rcases ih (bumpKey t k) x h with h | h
    · rw [bumpKey_eq_mergeIns] at h
      rcases mem_keys_mergeIns h with h | h
      · exact Or.inr (h ▸ List.mem_cons_self _ _)
      · exact Or.inl h
    · exact Or.inr (List.mem_cons_of_mem _ h)

theorem mem_keys_aggregate {ks : List PivotKey} {x : PivotKey}
    (h : x ∈ keys (aggregate ks)) : x ∈ ks := by
  rcases mem_keys_foldl_bump ks [] x h with h | h
  · simp [keys] at h
  · exact h

/-! ### The filter pipeline on fixed-schema, fully-present batches -/

theorem range_map_getD {α : Type} (l : List α) (d : α) :
    (List.range l.length).map (fun j => l.getD j d) = l := by
  induction l with
  | nil => rfl
  | cons x xs ih =>
    rw [List.length_cons, List.range_succ_eq_map, List.map_cons, List.map_map]
    simp only [Function.comp_def, List.getD_cons_zero, Nat.succ_eq_add_one, List.getD_cons_succ]
    rw [ih]

theorem dropEmptyCols_eq_self (df : DF) (hne : df.rows ≠ [])
    (hlen : ∀ r ∈ df.rows, r.length = df.cols.length)
    (hsome : ∀ r ∈ df.rows, ∀ c ∈ r, c.isSome) :
    dropEmptyCols df = df := by
  obtain ⟨cols, rows⟩ := df
  have hkeep : ((List.range cols.length).filter fun j =>
      rows.any fun r => (getCell r j).isSome) = List.range cols.length := by
    apply List.filter_eq_self.mpr
    intro j hj
    cases rows with
    | nil => exact absurd rfl hne
    | cons r0 rest =>
      apply List.any_eq_true.mpr
      refine ⟨r0, List.mem_cons_self _ _, ?_⟩
      have hj2 : j < r0.length := by
        rw [hlen r0 (List.mem_cons_self _ _)]
        exact List.mem_range.mp hj
      rw [getCell, List.getD_eq_getElem r0 none hj2]
      exact hsome r0 (List.mem_cons_self _ _) _ (List.getElem_mem hj2)
  simp only [dropEmptyCols, hkeep]
  congr 1
  · exact range_map_getD cols ""
  · have : ∀ r ∈ rows, ((List.range cols.length).map fun j => getCell r j) = r := by
      intro r hr
      have hlr : r.length = cols.length := hlen r hr
      rw [← hlr]
      simp only [getCell]
      exact range_map_getD r none
    calc rows.map (fun r => (List.range cols.length).map fun j => getCell r j)
        = rows.map id := List.map_congr_left this
      _ = rows := List.map_id rows

theorem applyAdditional_cols : ∀ (fs : List (String × Pattern)) (df : DF),
    (applyAdditional df fs).cols = df.cols
  | [], _ => rfl
  | (c, p) :: fs, df => by
    simp only [applyAdditional]
    cases h : df.colIdx c with
    | none => exact applyAdditional_cols fs df
    | some j => exact applyAdditional_cols fs _

theorem applyAdditional_rows_nil : ∀ (fs : List (String × Pattern)) (cols : List String),
    (applyAdditional ⟨cols, []⟩ fs).rows = []
  | [], _ => rfl
  | (c, p) :: fs, cols => by
    simp only [applyAdditional]
    cases h : DF.colIdx ⟨cols, []⟩ c with
    | none => exact applyAdditional_rows_nil fs cols
    | some j =>
      simp only [List.filter_nil]
      exact applyAdditional_rows_nil fs cols

theorem applyAdditional_rows_append : ∀ (fs : List (String × Pattern)) (cols : List String)
    (r1 r2 : List (List Cell)),
    (applyAdditional ⟨cols, r1 ++ r2⟩ fs).rows =
      (applyAdditional ⟨cols, r1⟩ fs).rows ++ (applyAdditional ⟨cols, r2⟩ fs).rows
  | [], _, _, _ => rfl
  | (c, p) :: fs, cols, r1, r2 => by
    cases h : DF.colIdx ⟨cols, r1 ++ r2⟩ c with
    | none =>
      have h1 : DF.colIdx ⟨cols, r1⟩ c = none := h
      have h2 : DF.colIdx ⟨cols, r2⟩ c = none := h
      simp only [applyAdditional, h, h1, h2]
      exact applyAdditional_rows_append fs cols r1 r2
    | some j =>
      have h1 : DF.colIdx ⟨cols, r1⟩ c = some j := h
      have h2 : DF.colIdx ⟨cols, r2⟩ c = some j := h
      simp only [applyAdditional, h, h1, h2, List.filter_append]
      exact applyAdditional_rows_append fs cols _ _

theorem applyAdditional_skip : ∀ (pre : List (String × Pattern)) (df : DF) (c : String)
    (p : Pattern) (post : List (String × Pattern)), df.colIdx c = none →
    applyAdditional df (pre ++ (c, p) :: post) = applyAdditional df (pre ++ post)
  | [], df, c, p, post, hc => by
    simp only [List.nil_append, applyAdditional, hc]
  | (c1, p1) :: pre, df, c, p, post, hc => by
    simp only [List.cons_append, applyAdditional]
    cases h : df.colIdx c1 with
    | none => exact applyAdditional_skip pre df c p post hc
    | some j => exact applyAdditional_skip pre _ c p post hc

/-- The row-survival test of one optional exclude stage, resolved against a
fixed header (the form the exclude stages take on a batch with no missing
values). -/
def exclKeep (cols : List String) (col : String) : Option Pattern → List Cell → Bool
  | none => fun _ => true
  | some p =>
    match cols.findIdx? (· == col) with
    | none => fun _ => true
    | some j => fun r => !(cellContains p (getCell r j))

theorem except_bind_ok {ε α β : Type} (a : α) (f : α → Except ε β) :
    (Except.ok a : Except ε α) >>= f = f a := rfl

theorem except_bind_error {ε α β : Type} (e : ε) (f : α → Except ε β) :
    (Except.error e : Except ε α) >>= f = Except.error e := rfl

theorem filter_dataframe_norm (header : List String) (cfg : Config) (rows : List (List Cell))
    (hne : rows ≠ []) (hlen : ∀ r ∈ rows, r.length = header.length)
    (hsome : ∀ r ∈ rows, ∀ c ∈ r, c.isSome)
    (hm : cfg.main_column_exclude = none ∨ (header.findIdx? (· == cfg.main_column)).isSome)
    (hs : cfg.secondary_column_exclude = none ∨
      (header.findIdx? (· == cfg.secondary_column)).isSome) :
    filter_dataframe ⟨header, rows⟩ cfg = .ok (applyAdditional
      ⟨header, ((rows.filter (exclKeep header cfg.main_column cfg.main_column_exclude)).filter
        (exclKeep header cfg.secondary_column cfg.secondary_column_exclude)).map
        (List.map fillCell)⟩ cfg.additional_filters) := by
  have hdrop : dropEmptyCols ⟨header, rows⟩ = ⟨header, rows⟩ :=
    dropEmptyCols_eq_self ⟨header, rows⟩ hne hlen hsome
  have step1 : applyExcludeOpt cfg.main_column cfg.main_column_exclude ⟨header, rows⟩ =
      .ok ⟨header, rows.filter (exclKeep header cfg.main_column cfg.main_column_exclude)⟩ := by
    cases hmc : cfg.main_column_exclude with
    | none =>
      simp only [applyExcludeOpt, exclKeep, List.filter_true]
    | some p =>
      rcases hm with hm | hm
      · rw [hmc] at hm
        cases hm
      · obtain ⟨j, hj⟩ := Option.isSome_iff_exists.mp hm
        simp only [applyExcludeOpt, applyExclude, DF.colIdx, hj, exclKeep]
  have step2 : applyExcludeOpt cfg.secondary_column cfg.secondary_column_exclude
      ⟨header, rows.filter (exclKeep header cfg.main_column cfg.main_column_exclude)⟩ =
      .ok ⟨header, (rows.filter (exclKeep header cfg.main_column cfg.main_column_exclude)).filter
        (exclKeep header cfg.secondary_column cfg.secondary_column_exclude)⟩ := by
    cases hsc : cfg.secondary_column_exclude with
    | none =>
      simp only [applyExcludeOpt, exclKeep, List.filter_true]
    | some p =>
      rcases hs with hs | hs
      · rw [hsc] at hs
        cases hs
      · obtain ⟨j, hj⟩ := Option.isSome_iff_exists.mp hs
        simp only [applyExcludeOpt, applyExclude, DF.colIdx, hj, exclKeep]
  simp only [filter_dataframe, hdrop, step1, step2, except_bind_ok]
  rfl

theorem pivot_table_norm (df : DF) (cfg : Config) (sj mj : Nat)
    (hsj : df.colIdx cfg.secondary_column = some sj)
    (hmj : df.colIdx cfg.main_column = some mj) :
    pivot_table df cfg = .ok (aggregate ((df.rows.filter fun r =>
      !(pyStrip (cellStr (getCell r sj)) == "")).map fun r =>
      (cellStr (getCell r mj), cellStr (getCell r sj)))) := by
  simp only [pivot_table, hsj, hmj]

/-- The (main, secondary) key stream a batch contributes to the pivot
count, with the filter stages resolved against a fixed header: exclude
stages, fill, additional filters, empty-secondary drop, key projection. -/
def procKeys (header : List String) (cfg : Config) (sj mj : Nat)
    (rows : List (List Cell)) : List PivotKey :=
  ((applyAdditional ⟨header,
      ((rows.filter (exclKeep header cfg.main_column cfg.main_column_exclude)).filter
        (exclKeep header cfg.secondary_column cfg.secondary_column_exclude)).map
        (List.map fillCell)⟩ cfg.additional_filters).rows.filter fun r =>
      !(pyStrip (cellStr (getCell r sj)) == "")).map fun r =>
      (cellStr (getCell r mj), cellStr (getCell r sj))

theorem procKeys_append (header : List String) (cfg : Config) (sj mj : Nat)
    (r1 r2 : List (List Cell)) :
    procKeys header cfg sj mj (r1 ++ r2) =
      procKeys header cfg sj mj r1 ++ procKeys header cfg sj mj r2 := by
  simp only [procKeys]
  rw [List.filter_append, List.filter_append, List.map_append,
    applyAdditional_rows_append, List.filter_append, List.map_append]

theorem procKeys_nil (header : List String) (cfg : Config) (sj mj : Nat) :
    procKeys header cfg sj mj [] = [] := by
  simp only [procKeys, List.filter_nil, List.map_nil, applyAdditional_rows_nil]

theorem pipeline_norm (header : List String) (cfg : Config) (rows : List (List Cell))
    (sj mj : Nat)
    (hne : rows ≠ []) (hlen : ∀ r ∈ rows, r.length = header.length)
    (hsome : ∀ r ∈ rows, ∀ c ∈ r, c.isSome)
    (hsj : header.findIdx? (· == cfg.secondary_column) = some sj)
    (hmj : header.findIdx? (· == cfg.main_column) = some mj) :
    (filter_dataframe ⟨header, rows⟩ cfg) >>= (fun d => pivot_table d cfg) =
      .ok (aggregate (procKeys header cfg sj mj rows)) := by
  rw [filter_dataframe_norm header cfg rows hne hlen hsome
    (Or.inr (by rw [hmj]; rfl)) (Or.inr (by rw [hsj]; rfl)), except_bind_ok]
  set D := applyAdditional ⟨header,
    ((rows.filter (exclKeep header cfg.main_column cfg.main_column_exclude)).filter
      (exclKeep header cfg.secondary_column cfg.secondary_column_exclude)).map
      (List.map fillCell)⟩ cfg.additional_filters with hD
  have hcols : D.cols = header := by
    rw [hD]
    exact applyAdditional_cols _ _
  have hsj2 : D.colIdx cfg.secondary_column = some sj := by
    rw [DF.colIdx, hcols]
    exact hsj
  have hmj2 : D.colIdx cfg.main_column = some mj := by
    rw [DF.colIdx, hcols]
    exact hmj
  rw [pivot_table_norm D cfg sj mj hsj2 hmj2]
  rw [procKeys, hD]

theorem applyExcludeOpt_ok_cols {col : String} {po : Option Pattern} {df d : DF}
    (h : applyExcludeOpt col po df = .ok d) : d.cols = df.cols := by
  cases po with
  | none =>
    simp only [applyExcludeOpt] at h
    cases h
    rfl
  | some p =>
    simp only [applyExcludeOpt, applyExclude] at h
    cases hj : df.colIdx col with
    | none =>
      rw [hj] at h
      cases h
    | some j =>
      rw [hj] at h
      cases h
      rfl

theorem filter_dataframe_ok_cols {df d : DF} {cfg : Config}
    (h : filter_dataframe df cfg = .ok d) : d.cols = (dropEmptyCols df).cols := by
  simp only [filter_dataframe] at h
  cases h1 : applyExcludeOpt cfg.main_column cfg.main_column_exclude (dropEmptyCols df) with
  | error e =>
    rw [h1, except_bind_error] at h
    cases h
  | ok d1 =>
    rw [h1, except_bind_ok] at h
    cases h2 : applyExcludeOpt cfg.secondary_column cfg.secondary_column_exclude d1 with
    | error e =>
      rw [h2, except_bind_error] at h
      cases h
    | ok d2 =>
      rw [h2, except_bind_ok] at h
      cases h
      rw [applyAdditional_cols]
      have : (fillEmpty d2).cols = d2.cols := rfl
      rw [this, applyExcludeOpt_ok_cols h2, applyExcludeOpt_ok_cols h1]

theorem accTable_optT {a t : CountTable} (ht : WF t) :
    accTable (if a = [] then none else some a) t =
      (if merge a t = [] then none else some (merge a t)) := by
  by_cases hte : t = []
  · subst hte
    rw [merge_nil]
    simp [accTable]
  · simp only [accTable, if_neg hte]
    by_cases hae : a = []
    · subst hae
      rw [if_pos rfl, nil_merge ht, if_neg hte]
    · rw [if_neg hae, if_neg (fun h => hae (merge_eq_nil h).1)]

theorem chunkLoop_fold (header : List String) (cfg : Config) (sj mj : Nat)
    (hsj : header.findIdx? (· == cfg.secondary_column) = some sj)
    (hmj : header.findIdx? (· == cfg.main_column) = some mj) :
    ∀ (chunks : List (List (List Cell))) (a : CountTable), WF a →
      (∀ ch ∈ chunks, ch ≠ []) →
      (∀ ch ∈ chunks, ∀ r ∈ ch, r.length = header.length ∧ ∀ c ∈ r, c.isSome) →
      chunkLoop header cfg chunks (if a = [] then none else some a) =
        .ok (if merge a (aggregate (procKeys header cfg sj mj chunks.flatten)) = [] then none
          else some (merge a (aggregate (procKeys header cfg sj mj chunks.flatten)))) := by
  intro chunks
  induction chunks with
  | nil =>
    intro a ha hne hgood
    simp only [chunkLoop, List.flatten_nil, procKeys_nil, aggregate, List.foldl_nil, merge_nil]
  | cons ch rest ih =>
    intro a ha hne hgood
    have hchne : ch ≠ [] := hne ch (List.mem_cons_self _ _)
    have hchlen : ∀ r ∈ ch, r.length = header.length :=
      fun r hr => (hgood ch (List.mem_cons_self _ _) r hr).1
    have hchsome : ∀ r ∈ ch, ∀ c ∈ r, c.isSome :=
      fun r hr => (hgood ch (List.mem_cons_self _ _) r hr).2
    have hpipe := pipeline_norm header cfg ch sj mj hchne hchlen hchsome hsj hmj
    cases hf : filter_dataframe ⟨header, ch⟩ cfg with
    | error e =>
      rw [hf, except_bind_error] at hpipe
      cases hpipe
    | ok D =>
      rw [hf, except_bind_ok] at hpipe
      have hstep : chunkLoop header cfg (ch :: rest) (if a = [] then none else some a) =
          chunkLoop header cfg rest
            (accTable (if a = [] then none else some a)
              (aggregate (procKeys header cfg sj mj ch))) := by
        simp only [chunkLoop, hf, except_bind_ok, hpipe]
      rw [hstep, accTable_optT (WF_aggregate _)]
      rw [ih (merge a (aggregate (procKeys header cfg sj mj ch)))
        (WF_merge ha (WF_aggregate _))
        (fun c hc => hne c (List.mem_cons_of_mem _ hc))
        (fun c hc => hgood c (List.mem_cons_of_mem _ hc))]
      rw [merge_assoc ha (WF_aggregate _) (WF_aggregate _), ← aggregate_append,
        ← procKeys_append, List.flatten_cons]

/-! ### Claim theorems -/

/-- C1 (amended): for batches as the chunked reader produces them (fixed
header, rows aligned with it, every cell a present string) and any
partition into nonempty contiguous chunks, the chunk loop of
`pivot_chunked_file` — per-chunk filter, per-chunk pivot, outer-join-sum
merge with empty-chunk skipping, starting from `None` — returns exactly
the whole-batch filter-then-aggregate table, wrapped as an absent value
(`none`) precisely when that table is empty.  (As literally stated the
claim is false: the two router modes are observably different, see the
counterexample.) -/
theorem chunked_aggregation_matches_whole_batch
    (header : List String) (cfg : Config) (chunks : List (List (List Cell)))
    (t : CountTable)
    (hchunks : chunks ≠ []) (hne : ∀ ch ∈ chunks, ch ≠ [])
    (hgood : ∀ ch ∈ chunks, ∀ r ∈ ch, r.length = header.length ∧ ∀ c ∈ r, c.isSome)
    (hw : (filter_dataframe ⟨header, chunks.flatten⟩ cfg) >>= (fun d => pivot_table d cfg)
      = .ok t) :
    chunkLoop header cfg chunks none = .ok (if t = [] then none else some t) := by
  have hfne : chunks.flatten ≠ [] := by
    cases chunks with
    | nil => exact absurd rfl hchunks
    | cons ch rest =>
      rw [List.flatten_cons]
      intro h
      exact hne ch (List.mem_cons_self _ _) (List.append_eq_nil.mp h).1
  have hflen : ∀ r ∈ chunks.flatten, r.length = header.length := by
    intro r hr
    obtain ⟨ch, hch, hrch⟩ := List.mem_flatten.mp hr
    exact (hgood ch hch r hrch).1
  have hfsome : ∀ r ∈ chunks.flatten, ∀ c ∈ r, c.isSome := by
    intro r hr
    obtain ⟨ch, hch, hrch⟩ := List.mem_flatten.mp hr
    exact (hgood ch hch r hrch).2
  cases hf : filter_dataframe ⟨header, chunks.flatten⟩ cfg with
  | error e =>
    rw [hf, except_bind_error] at hw
    cases hw
  | ok D =>
    rw [hf, except_bind_ok] at hw
    have hDcols : D.cols = header := by
      rw [filter_dataframe_ok_cols hf,
        dropEmptyCols_eq_self ⟨header, chunks.flatten⟩ hfne hflen hfsome]
    cases hsj0 : D.colIdx cfg.secondary_column with
    | none =>
      simp only [pivot_table, hsj0] at hw
      cases hw
    | some sj =>
      cases hmj0 : D.colIdx cfg.main_column with
      | none =>
        simp only [pivot_table, hsj0, hmj0] at hw
        cases hw
      | some mj =>
        rw [DF.colIdx, hDcols] at hsj0 hmj0
        have hpipe := pipeline_norm header cfg chunks.flatten sj mj hfne hflen hfsome hsj0 hmj0
        rw [hf, except_bind_ok, hw] at hpipe
        have ht : aggregate (procKeys header cfg sj mj chunks.flatten) = t :=
          (Except.ok.inj hpipe).symm
        have hfold := chunkLoop_fold header cfg sj mj hsj0 hmj0 chunks []
          ⟨List.Pairwise.nil, by simp⟩ hne hgood
        rw [if_pos rfl, nil_merge (WF_aggregate _), ht] at hfold
        exact hfold

/-- C1 counterexample: one concrete file on which the whole-file path and
the chunked path return observably different results, because the
whole-file reader turns empty fields into NaN (so the all-empty `Follow`
column is dropped and its filter skipped) while the chunked reader keeps
them as empty strings (so the `Follow` full-match filter drops every row
and the loop returns an absent value). -/
theorem chunked_vs_whole_counterexample :
    pivot_file 1 (Csv.mk ["Destination", "Anchor", "Follow"]
        [["NY", "Blue", ""], ["LA", "Red", ""]])
      (Config.mk "Destination" none "Anchor" none [("Follow", litPat "FALSE")]) =
      .ok (some [(("LA", "Red"), 1), (("NY", "Blue"), 1)]) ∧
    pivot_file (MAX_FILE_SIZE + 1) (Csv.mk ["Destination", "Anchor", "Follow"]
        [["NY", "Blue", ""], ["LA", "Red", ""]])
      (Config.mk "Destination" none "Anchor" none [("Follow", litPat "FALSE")]) =
      .ok none :=
  ⟨by decide, by decide⟩

/-- C1 witness: the amended chunk-invariance theorem applied to a concrete
two-chunk partition. -/
theorem chunked_aggregation_matches_whole_batch_witness :
    (([[[some "NY", some "Blue"]],
       [[some "NY", some "Blue"], [some "LA", some "Red"]]] :
        List (List (List Cell))) ≠ [] ∧
     (∀ ch ∈ ([[[some "NY", some "Blue"]],
       [[some "NY", some "Blue"], [some "LA", some "Red"]]] :
        List (List (List Cell))), ch ≠ []) ∧
     (∀ ch ∈ ([[[some "NY", some "Blue"]],
       [[some "NY", some "Blue"], [some "LA", some "Red"]]] :
        List (List (List Cell))), ∀ r ∈ ch,
        r.length = (["Destination", "Anchor"] : List String).length ∧
        ∀ c ∈ r, c.isSome) ∧
     (filter_dataframe ⟨["Destination", "Anchor"],
        ([[[some "NY", some "Blue"]],
          [[some "NY", some "Blue"], [some "LA", some "Red"]]] :
          List (List (List Cell))).flatten⟩
        (Config.mk "Destination" none "Anchor" none []) >>=
        (fun d => pivot_table d (Config.mk "Destination" none "Anchor" none []))
      = .ok [(("LA", "Red"), 1), (("NY", "Blue"), 2)])) ∧
    chunkLoop ["Destination", "Anchor"] (Config.mk "Destination" none "Anchor" none [])
      [[[some "NY", some "Blue"]],
       [[some "NY", some "Blue"], [some "LA", some "Red"]]] none =
      .ok (if ([(("LA", "Red"), 1), (("NY", "Blue"), 2)] : CountTable) = []
        then none else some [(("LA", "Red"), 1), (("NY", "Blue"), 2)]) :=
  ⟨⟨by decide, by decide, by decide, by decide⟩,
   chunked_aggregation_matches_whole_batch _ _ _ _
     (by decide) (by decide) (by decide) (by decide)⟩

/-- C2: the key set of `merge a b` is the union of the two key sets; a key
in both tables gets the sum of the two counts, a key in exactly one gets
that table's count unchanged. -/
theorem merge_semantics (a b : CountTable) (ha : WF a) (hb : WF b) :
    (∀ k, k ∈ keys (merge a b) ↔ k ∈ keys a ∨ k ∈ keys b) ∧
    (∀ k, k ∈ keys a → k ∈ keys b →
      tblCount (merge a b) k = tblCount a k + tblCount b k) ∧
    (∀ k, k ∈ keys a → k ∉ keys b → tblCount (merge a b) k = tblCount a k) ∧
    (∀ k, k ∉ keys a → k ∈ keys b → tblCount (merge a b) k = tblCount b k) := by
  have hm := WF_merge ha hb
  refine ⟨?_, ?_, ?_, ?_⟩
  · intro k
    rw [mem_keys_iff_count_pos hm.2, mem_keys_iff_count_pos ha.2,
      mem_keys_iff_count_pos hb.2, merge_count]
    omega
  · intro k _ _
    exact merge_count b a k
  · intro k _ hkb
    rw [merge_count]
    have hz : tblCount b k = 0 := by
      by_contra h
      exact hkb (mem_keys_of_count_pos (Nat.pos_of_ne_zero h))
    omega
  · intro k hka _
    rw [merge_count]
    have hz : tblCount a k = 0 := by
      by_contra h
      exact hka (mem_keys_of_count_pos (Nat.pos_of_ne_zero h))
    omega

/-- C2 witness: the merge semantics at two concrete well-formed tables. -/
theorem merge_semantics_witness :
    (WF [(("a", "x"), 1), (("b", "y"), 2)] ∧ WF [(("b", "y"), 3), (("c", "z"), 4)]) ∧
    ((∀ k, k ∈ keys (merge [(("a", "x"), 1), (("b", "y"), 2)] [(("b", "y"), 3), (("c", "z"), 4)])
        ↔ k ∈ keys [(("a", "x"), 1), (("b", "y"), 2)] ∨ k ∈ keys [(("b", "y"), 3), (("c", "z"), 4)]) ∧
     (∀ k, k ∈ keys [(("a", "x"), 1), (("b", "y"), 2)] → k ∈ keys [(("b", "y"), 3), (("c", "z"), 4)] →
        tblCount (merge [(("a", "x"), 1), (("b", "y"), 2)] [(("b", "y"), 3), (("c", "z"), 4)]) k =
          tblCount [(("a", "x"), 1), (("b", "y"), 2)] k + tblCount [(("b", "y"), 3), (("c", "z"), 4)] k) ∧
     (∀ k, k ∈ keys [(("a", "x"), 1), (("b", "y"), 2)] → k ∉ keys [(("b", "y"), 3), (("c", "z"), 4)] →
        tblCount (merge [(("a", "x"), 1), (("b", "y"), 2)] [(("b", "y"), 3), (("c", "z"), 4)]) k =
          tblCount [(("a", "x"), 1), (("b", "y"), 2)] k) ∧
     (∀ k, k ∉ keys [(("a", "x"), 1), (("b", "y"), 2)] → k ∈ keys [(("b", "y"), 3), (("c", "z"), 4)] →
        tblCount (merge [(("a", "x"), 1), (("b", "y"), 2)] [(("b", "y"), 3), (("c", "z"), 4)]) k =
          tblCount [(("b", "y"), 3), (("c", "z"), 4)] k)) :=
  ⟨⟨by decide, by decide⟩, merge_semantics _ _ (by decide) (by decide)⟩

/-- C3: merge is commutative and associative on well-formed count tables,
with the empty table as identity. -/
theorem merge_algebra (a b c : CountTable) (ha : WF a) (hb : WF b) (hc : WF c) :
    merge a b = merge b a ∧ merge (merge a b) c = merge a (merge b c) ∧
    merge a emptyTable = a :=
  ⟨merge_comm ha hb, merge_assoc ha hb hc, merge_nil a⟩

/-- C3 witness: the merge algebra at three concrete well-formed tables. -/
theorem merge_algebra_witness :
    (WF [(("a", "x"), 1)] ∧ WF [(("a", "x"), 2), (("b", "y"), 1)] ∧ WF [(("c", "z"), 5)]) ∧
    (merge [(("a", "x"), 1)] [(("a", "x"), 2), (("b", "y"), 1)] =
      merge [(("a", "x"), 2), (("b", "y"), 1)] [(("a", "x"), 1)] ∧
     merge (merge [(("a", "x"), 1)] [(("a", "x"), 2), (("b", "y"), 1)]) [(("c", "z"), 5)] =
      merge [(("a", "x"), 1)] (merge [(("a", "x"), 2), (("b", "y"), 1)] [(("c", "z"), 5)]) ∧
     merge [(("a", "x"), 1)] emptyTable = [(("a", "x"), 1)]) :=
  ⟨⟨by decide, by decide, by decide⟩,
   merge_algebra _ _ _ (by decide) (by decide) (by decide)⟩

/-- Keys of a well-formed table are pairwise distinct and all its counts
are positive. -/
theorem WF_nodup_pos {t : CountTable} (ht : WF t) :
    (keys t).Nodup ∧ ∀ e ∈ t, 1 ≤ e.2 := by
  constructor
  · exact ht.1.map Prod.fst (fun a b hab => keyLt_ne hab)
  · exact ht.2

/-- Every table `pivot_table` returns is well-formed. -/
theorem pivot_table_ok_WF {df : DF} {cfg : Config} {t : CountTable}
    (h : pivot_table df cfg = .ok t) : WF t := by
  cases hsj : df.colIdx cfg.secondary_column with
  | none =>
    simp only [pivot_table, hsj] at h
    cases h
  | some sj =>
    cases hmj : df.colIdx cfg.main_column with
    | none =>
      simp only [pivot_table, hsj, hmj] at h
      cases h
    | some mj =>
      rw [pivot_table_norm df cfg sj mj hsj hmj] at h
      rw [← Except.ok.inj h]
      exact WF_aggregate _

/-- C9: aggregation only ever returns tables with pairwise-distinct keys
and strictly positive counts, and merging two tables that satisfy the
representation invariant yields a table that satisfies it again (zero or
empty entries are never stored). -/
theorem count_table_invariant (df : DF) (cfg : Config) (t a b : CountTable) :
    (pivot_table df cfg = .ok t → WF t ∧ (keys t).Nodup ∧ ∀ e ∈ t, 1 ≤ e.2) ∧
    (WF a → WF b → WF (merge a b) ∧ (keys (merge a b)).Nodup ∧
      ∀ e ∈ merge a b, 1 ≤ e.2) := by
  constructor
  · intro h
    have hwf := pivot_table_ok_WF h
    exact ⟨hwf, WF_nodup_pos hwf⟩
  · intro ha hb
    have hwf := WF_merge ha hb
    exact ⟨hwf, WF_nodup_pos hwf⟩

/-- C9 witness: the invariant at one concrete aggregation and one concrete
merge. -/
theorem count_table_invariant_witness :
    (pivot_table ⟨["Destination", "Anchor"],
        [[some "NY", some "Blue"], [some "NY", some "Blue"]]⟩
      (Config.mk "Destination" none "Anchor" none []) =
        .ok [(("NY", "Blue"), 2)]) ∧
    (WF [(("NY", "Blue"), 2)] ∧ (keys [(("NY", "Blue"), 2)]).Nodup ∧
      ∀ e ∈ ([(("NY", "Blue"), 2)] : CountTable), 1 ≤ e.2) ∧
    (WF [(("a", "x"), 1)] ∧ WF [(("b", "y"), 2)]) ∧
    (WF (merge [(("a", "x"), 1)] [(("b", "y"), 2)]) ∧
      (keys (merge [(("a", "x"), 1)] [(("b", "y"), 2)])).Nodup ∧
      ∀ e ∈ merge [(("a", "x"), 1)] [(("b", "y"), 2)], 1 ≤ e.2) :=
  ⟨by decide,
   (count_table_invariant ⟨["Destination", "Anchor"],
      [[some "NY", some "Blue"], [some "NY", some "Blue"]]⟩
      (Config.mk "Destination" none "Anchor" none []) [(("NY", "Blue"), 2)]
      [(("a", "x"), 1)] [(("b", "y"), 2)]).1 (by decide),
   ⟨by decide, by decide⟩,
   (count_table_invariant ⟨["Destination", "Anchor"],
      [[some "NY", some "Blue"], [some "NY", some "Blue"]]⟩
      (Config.mk "Destination" none "Anchor" none []) [(("NY", "Blue"), 2)]
      [(("a", "x"), 1)] [(("b", "y"), 2)]).2 (by decide) (by decide)⟩

/-- C4: the code, evaluated at the failing input.  A file whose schema
lacks the main column makes `filter_dataframe` raise `KeyError`; the
per-file loop catches only `ZeroDivisionError` (pivot_table.py:159), so
the `KeyError` aborts the whole run — the second file, which on its own
processes fine, is never reached. -/
theorem missing_required_column_aborts_run :
    main_file_loop (Config.mk "Destination" (some (litPat "X")) "Anchor" none [])
      [(1, Csv.mk ["Anchor"] [["Blue"]]),
       (1, Csv.mk ["Destination", "Anchor"] [["NY", "Blue"]])] =
      .error (.keyError "Destination") ∧
    main_file_loop (Config.mk "Destination" (some (litPat "X")) "Anchor" none [])
      [(1, Csv.mk ["Destination", "Anchor"] [["NY", "Blue"]])] =
      .ok [some [(("NY", "Blue"), 1)]] :=
  ⟨by decide, by decide⟩

/-- C5: the code, evaluated at the failing input.  When zero rows survive,
whole-file mode does return an explicitly empty table, but chunked mode
returns an absent value (`overall_pivot_df` stays `None`), and writing it
out then raises `AttributeError`, aborting the run instead of proceeding
to output normally. -/
theorem empty_result_absent_in_chunked_mode :
    pivot_whole (Csv.mk ["Destination", "Anchor"] [["NY", "  "]])
      (Config.mk "Destination" none "Anchor" none []) = .ok (some emptyTable) ∧
    pivot_chunked_file (Csv.mk ["Destination", "Anchor"] [["NY", "  "]])
      (Config.mk "Destination" none "Anchor" none []) = .ok none ∧
    main_file_loop (Config.mk "Destination" none "Anchor" none [])
      [(MAX_FILE_SIZE + 1, Csv.mk ["Destination", "Anchor"] [["NY", "  "]])] =
      .error .attributeError :=
  ⟨by decide, by decide, by decide⟩

/-- C6: an additional filter whose column is absent from the batch is
skipped — filtering behaves exactly as if that one (column, pattern) entry
were removed from the configuration, so it drops no rows and the remaining
filters still run; and any error filtering raises is an error the
exclude stages raise without any additional filters, so the additional
filters never let an exception escape. -/
theorem additional_filter_missing_column_skipped (df : DF) (cfg : Config)
    (c : String) (p : Pattern) (pre post : List (String × Pattern))
    (hfs : cfg.additional_filters = pre ++ (c, p) :: post)
    (hc : (dropEmptyCols df).colIdx c = none) :
    filter_dataframe df cfg = filter_dataframe df
      (Config.mk cfg.main_column cfg.main_column_exclude cfg.secondary_column
        cfg.secondary_column_exclude (pre ++ post)) ∧
    (∀ e, filter_dataframe df cfg = .error e → filter_dataframe df
      (Config.mk cfg.main_column cfg.main_column_exclude cfg.secondary_column
        cfg.secondary_column_exclude []) = .error e) := by
  constructor
  · simp only [filter_dataframe, hfs]
    cases h1 : applyExcludeOpt cfg.main_column cfg.main_column_exclude (dropEmptyCols df) with
    | error e => rw [except_bind_error, except_bind_error]
    | ok d1 =>
      rw [except_bind_ok, except_bind_ok]
      cases h2 : applyExcludeOpt cfg.secondary_column cfg.secondary_column_exclude d1 with
      | error e => rw [except_bind_error, except_bind_error]
      | ok d2 =>
        rw [except_bind_ok, except_bind_ok]
        have hcfill : (fillEmpty d2).colIdx c = none := by
          show (fillEmpty d2).cols.findIdx? (· == c) = none
          have e2 : (fillEmpty d2).cols = d2.cols := rfl
          rw [e2, applyExcludeOpt_ok_cols h2, applyExcludeOpt_ok_cols h1]
          exact hc
        rw [applyAdditional_skip pre (fillEmpty d2) c p post hcfill]
  · intro e he
    simp only [filter_dataframe] at he ⊢
    cases h1 : applyExcludeOpt cfg.main_column cfg.main_column_exclude (dropEmptyCols df) with
    | error e1 =>
      rw [h1, except_bind_error] at he
      rw [except_bind_error]
      exact he
    | ok d1 =>
      rw [h1, except_bind_ok] at he
      rw [except_bind_ok]
      cases h2 : applyExcludeOpt cfg.secondary_column cfg.secondary_column_exclude d1 with
      | error e2 =>
        rw [h2, except_bind_error] at he
        rw [except_bind_error]
        exact he
      | ok d2 =>
        rw [h2, except_bind_ok] at he
        cases he

/-- C6 witness: the skip property at a concrete batch lacking the `Follow`
column. -/
theorem additional_filter_missing_column_skipped_witness :
    ((Config.mk "Destination" none "Anchor" none
        [("Follow", litPat "FALSE")]).additional_filters =
      [] ++ ("Follow", litPat "FALSE") :: [] ∧
     (dropEmptyCols ⟨["Destination", "Anchor"],
        [[some "NY", some "Blue"]]⟩).colIdx "Follow" = none) ∧
    (filter_dataframe ⟨["Destination", "Anchor"], [[some "NY", some "Blue"]]⟩
        (Config.mk "Destination" none "Anchor" none [("Follow", litPat "FALSE")]) =
      filter_dataframe ⟨["Destination", "Anchor"], [[some "NY", some "Blue"]]⟩
        (Config.mk "Destination" none "Anchor" none ([] ++ [])) ∧
     (∀ e, filter_dataframe ⟨["Destination", "Anchor"], [[some "NY", some "Blue"]]⟩
        (Config.mk "Destination" none "Anchor" none [("Follow", litPat "FALSE")]) = .error e →
      filter_dataframe ⟨["Destination", "Anchor"], [[some "NY", some "Blue"]]⟩
        (Config.mk "Destination" none "Anchor" none []) = .error e)) :=
  ⟨⟨rfl, by decide⟩,
   additional_filter_missing_column_skipped _ _ "Follow" (litPat "FALSE") [] [] rfl (by decide)⟩

/-- C7: additional filters are anchored full matches while the main and
secondary exclude patterns are substring searches: the additional pattern
"Yes" rejects the value "Yes please" (its row is dropped because the full
match fails), whereas the main exclude pattern "14-carat/" rejects
"Jewelry/14-carat/Rings" (its row is dropped because a substring
matches). -/
theorem fullmatch_vs_substring_semantics :
    filter_dataframe ⟨["Follow"], [[some "Yes please"]]⟩
      (Config.mk "Destination" none "Anchor" none [("Follow", litPat "Yes")]) =
      .ok ⟨["Follow"], []⟩ ∧
    filter_dataframe ⟨["Destination"], [[some "Jewelry/14-carat/Rings"]]⟩
      (Config.mk "Destination" (some (litPat "14-carat/")) "Anchor" none []) =
      .ok ⟨["Destination"], []⟩ :=
  ⟨by decide, by decide⟩

/-- C8: the counts in a pivot table sum to exactly the number of input
rows whose secondary value is non-empty after stripping, and every key in
the table has a non-blank stripped secondary value — blank-secondary rows
neither appear as keys nor inflate any count. -/
theorem count_conservation (df : DF) (cfg : Config) (sj : Nat) (t : CountTable)
    (hsj : df.colIdx cfg.secondary_column = some sj)
    (h : pivot_table df cfg = .ok t) :
    sumCounts t = (df.rows.filter fun r =>
      !(pyStrip (cellStr (getCell r sj)) == "")).length ∧
    ∀ k ∈ keys t, pyStrip k.2 ≠ "" := by
  cases hmj : df.colIdx cfg.main_column with
  | none =>
    simp only [pivot_table, hsj, hmj] at h
    cases h
  | some mj =>
    rw [pivot_table_norm df cfg sj mj hsj hmj] at h
    have ht : t = aggregate ((df.rows.filter fun r =>
        !(pyStrip (cellStr (getCell r sj)) == "")).map fun r =>
        (cellStr (getCell r mj), cellStr (getCell r sj))) := (Except.ok.inj h).symm
    constructor
    · rw [ht, sumCounts_aggregate, List.length_map]
    · intro k hk
      rw [ht] at hk
      obtain ⟨r, hr, hkr⟩ := List.mem_map.mp (mem_keys_aggregate hk)
      have hpred := (List.mem_filter.mp hr).2
      simp only [Bool.not_eq_true', beq_eq_false_iff_ne] at hpred
      rw [← hkr]
      exact hpred

/-- C8 witness: count conservation at a concrete filtered batch with one
blank-secondary row. -/
theorem count_conservation_witness :
    ((DF.mk ["Destination", "Anchor"]
        [[some "NY", some "Blue"], [some "NY", some "  "], [some "LA", some "Red"]]).colIdx
      "Anchor" = some 1 ∧
     pivot_table (DF.mk ["Destination", "Anchor"]
        [[some "NY", some "Blue"], [some "NY", some "  "], [some "LA", some "Red"]])
      (Config.mk "Destination" none "Anchor" none []) =
      .ok [(("LA", "Red"), 1), (("NY", "Blue"), 1)]) ∧
    (sumCounts [(("LA", "Red"), 1), (("NY", "Blue"), 1)] =
      ((DF.mk ["Destination", "Anchor"]
        [[some "NY", some "Blue"], [some "NY", some "  "], [some "LA", some "Red"]]).rows.filter
        fun r => !(pyStrip (cellStr (getCell r 1)) == "")).length ∧
     ∀ k ∈ keys [(("LA", "Red"), 1), (("NY", "Blue"), 1)], pyStrip k.2 ≠ "") :=
  ⟨⟨by decide, by decide⟩,
   count_conservation (DF.mk ["Destination", "Anchor"]
      [[some "NY", some "Blue"], [some "NY", some "  "], [some "LA", some "Red"]])
    (Config.mk "Destination" none "Anchor" none []) 1
    [(("LA", "Red"), 1), (("NY", "Blue"), 1)] (by decide) (by decide)⟩

/-- C10 counterexample: at a byte size exactly equal to the 100 MiB
threshold the router takes the whole-file path (the source tests
`size > MAX_FILE_SIZE`), not the chunked path the claim requires — and on
this file the two paths return different results, so the choice is
observable. -/
theorem router_at_threshold_uses_whole_file :
    MAX_FILE_SIZE = 104857600 ∧
    pivot_file MAX_FILE_SIZE (Csv.mk ["Destination", "Anchor"] [["NY", "  "]])
      (Config.mk "Destination" none "Anchor" none []) = .ok (some emptyTable) ∧
    pivot_chunked_file (Csv.mk ["Destination", "Anchor"] [["NY", "  "]])
      (Config.mk "Destination" none "Anchor" none []) = .ok none :=
  ⟨by decide, by decide, by decide⟩

/-- C10 (amended): the router processes a file whole when its byte size is
at or below the 100 MiB threshold, and in 100000-row chunks with
incremental merging when it is strictly above it. -/
theorem router_policy (sz : Nat) (f : Csv) (cfg : Config) :
    (sz ≤ MAX_FILE_SIZE → pivot_file sz f cfg = pivot_whole f cfg) ∧
    (MAX_FILE_SIZE < sz → pivot_file sz f cfg = pivot_chunked_file f cfg) := by
  constructor
  · intro h
    rw [pivot_file, if_neg (by omega)]
  · intro h
    rw [pivot_file, if_pos (by omega)]

/-- C10 witness: the router policy at sizes on both sides of the
threshold. -/
theorem router_policy_witness :
    (0 ≤ MAX_FILE_SIZE ∧
      pivot_file 0 (Csv.mk ["Destination", "Anchor"] [["NY", "Blue"]])
        (Config.mk "Destination" none "Anchor" none []) =
      pivot_whole (Csv.mk ["Destination", "Anchor"] [["NY", "Blue"]])
        (Config.mk "Destination" none "Anchor" none [])) ∧
    (MAX_FILE_SIZE < MAX_FILE_SIZE + 1 ∧
      pivot_file (MAX_FILE_SIZE + 1) (Csv.mk ["Destination", "Anchor"] [["NY", "Blue"]])
        (Config.mk "Destination" none "Anchor" none []) =
      pivot_chunked_file (Csv.mk ["Destination", "Anchor"] [["NY", "Blue"]])
        (Config.mk "Destination" none "Anchor" none [])) :=
  ⟨⟨Nat.zero_le _,
    (router_policy 0 (Csv.mk ["Destination", "Anchor"] [["NY", "Blue"]])
      (Config.mk "Destination" none "Anchor" none [])).1 (Nat.zero_le _)⟩,
   ⟨Nat.lt_succ_self _,
    (router_policy (MAX_FILE_SIZE + 1) (Csv.mk ["Destination", "Anchor"] [["NY", "Blue"]])
      (Config.mk "Destination" none "Anchor" none [])).2 (Nat.lt_succ_self _)⟩⟩
